import Mathlib

/-!
Shallow embedding of the gotobranch branch query/selection engine.

The Go sources embedded here are:
* `internal/core` (`ListBranches`, `GetCurrentBranch`, `Checkout`,
  `parseForEachRef`): the query engine and switch executor;
* `internal/tui/model.go` (`New`, `Update`, `selectByNumber`): the
  selection state machine.

Conventions of the embedding:
* Go `time.Time` values are modelled as `Int`; the zero value
  (`var t time.Time`) is `0`, and `Before`/`After` are `<`/`>`.
* The external `git` invocations are modelled as `Except String String`
  parameters holding the raw output or the failure.
* Go string primitives (`strings.Split`, `TrimSpace`, `ToLower`,
  `Contains`, `TrimPrefix`, byte-wise `<`, `strconv.Atoi`) are defined
  structurally over `String.data : List Char` so that every definition
  evaluates inside the kernel.  Byte-wise comparison of UTF-8 strings
  coincides with codepoint-wise comparison, which is what the `List Char`
  versions implement; lowercasing is the ASCII case map.
* `sort.Slice` is unstable in Go but must produce an order with no
  adjacent inversions; the embedding uses Mathlib's stable
  `List.insertionSort`, which satisfies that contract and agrees with the
  Go runtime on the two-element inputs used as counterexamples.
-/

/-- Character class used for `strings.TrimSpace` (ASCII whitespace). -/
def goIsSpace (c : Char) : Bool :=
  c = ' ' || c = '\t' || c = '\n' || c = '\r' || c = '\x0b' || c = '\x0c'

/-- Trim leading and trailing whitespace from a character list. -/
def goTrimChars (cs : List Char) : List Char :=
  ((cs.dropWhile goIsSpace).reverse.dropWhile goIsSpace).reverse

/-- `strings.TrimSpace`. -/
def goTrim (s : String) : String :=
  ⟨goTrimChars s.data⟩

/-- `strings.Split` with a one-character separator, on character lists.
`Split("", sep) = [""]`, and a trailing separator yields a final empty part,
exactly as in Go. -/
def goSplitChars (sep : Char) : List Char → List (List Char)
  | [] => [[]]
  | c :: cs =>
    let rest := goSplitChars sep cs
    if c = sep then [] :: rest
    else
      match rest with
      | [] => [[c]]
      | h :: t => (c :: h) :: t

/-- `strings.Split(s, sep)` for a one-character separator. -/
def goSplit (s : String) (sep : Char) : List String :=
  (goSplitChars sep s.data).map String.mk

/-- Join strings with tab separators (used to rebuild the remainder that
`strings.SplitN(line, "\t", 4)` leaves in its fourth field). -/
def joinTab : List String → String
  | [] => ""
  | [s] => s
  | s :: rest => s ++ "\t" ++ joinTab rest

/-- `strings.HasPrefix`-guarded `strings.TrimPrefix`. -/
def cutPre (pre s : String) : String :=
  if pre.data.isPrefixOf s.data then ⟨s.data.drop pre.data.length⟩ else s

/-- `strings.ToLower` (ASCII case map on each character). -/
def goToLower (s : String) : String :=
  ⟨s.data.map Char.toLower⟩

/-- Substring occurrence on character lists: some suffix of the haystack
starts with the needle. -/
def goContainsChars (sub : List Char) : List Char → Bool
  | [] => sub.isEmpty
  | c :: cs => sub.isPrefixOf (c :: cs) || goContainsChars sub cs

/-- `strings.Contains(s, sub)`. -/
def goContains (s sub : String) : Bool :=
  goContainsChars sub.data s.data

/-- Lexicographic order on character lists; Go compares strings byte-wise,
which on valid UTF-8 agrees with this codepoint-wise order. -/
def lexLtChars : List Char → List Char → Bool
  | [], [] => false
  | [], _ :: _ => true
  | _ :: _, [] => false
  | a :: as, b :: bs => if a < b then true else if b < a then false else lexLtChars as bs

/-- Go `<` on strings. -/
def strLt (a b : String) : Bool :=
  lexLtChars a.data b.data

/-- Value of a non-empty all-digit character list; `none` otherwise. -/
def digitsToInt (ds : List Char) : Option Int :=
  if ds = [] then none
  else if ds.all (fun c => '0' ≤ c && c ≤ '9') then
    some (ds.foldl (fun acc c => acc * 10 + ((c.toNat : Int) - 48)) 0)
  else none

/-- `strconv.Atoi`: optional sign followed by digits; anything else is an
error (`none`).  64-bit overflow is not modelled. -/
def goAtoi (s : String) : Option Int :=
  match s.data with
  | '+' :: ds => digitsToInt ds
  | '-' :: ds => (digitsToInt ds).map (fun n => -n)
  | ds => digitsToInt ds

/-- `core.Scope`: which branches to include. -/
inductive Scope where
  | ScopeLocal
  | ScopeRemote
  | ScopeAll
deriving DecidableEq, Repr

/-- `core.Branch`: a git branch with minimal metadata. -/
structure Branch where
  name : String
  fullRef : String
  isCurrent : Bool
  isRemote : Bool
  upstream : Option String
  headCommitSHA : Option String
  headCommitAt : Option Int
  lastCommitMessage : Option String
deriving DecidableEq, Repr, Inhabited

/-- `core.ListBranchesRequest`. -/
structure ListBranchesRequest where
  repoPath : String
  pattern : String
  scope : Scope
  sortBy : String
  sortDir : String
  page : Int
  pageSize : Int
deriving DecidableEq, Repr

/-- `core.ListBranchesResponse`. -/
structure ListBranchesResponse where
  items : List Branch
  page : Int
  pageSize : Int
  total : Int
  hasPrev : Bool
  hasNext : Bool
deriving DecidableEq, Repr

/-- `core.GetCurrentBranch`: trim the output of
`git rev-parse --abbrev-ref HEAD`; the literal name `HEAD` denotes a
detached head and is a distinguished error.  `curRaw` is the outcome of
the git invocation. -/
def GetCurrentBranch (curRaw : Except String String) : Except String Branch :=
  match curRaw with
  | .error e => .error e
  | .ok out =>
    let name := goTrim out
    if name = "HEAD" then .error "detached HEAD"
    else
      .ok { name := name, fullRef := "refs/heads/" ++ name, isCurrent := true,
            isRemote := false, upstream := none, headCommitSHA := none,
            headCommitAt := none, lastCommitMessage := none }

/-- One line of `core.parseForEachRef`: blank lines and lines with fewer
than four tab-separated fields are dropped; the fourth field keeps any
further tabs (`strings.SplitN(line, "\t", 4)`).  `parseDate` models
`time.Parse(time.RFC3339, dateStr)`; parse failure yields an absent
timestamp, never an error. -/
def parseRefLine (parseDate : String → Option Int) (isRemote : Bool)
    (line : String) : Option Branch :=
  if goTrim line = "" then none
  else
    match goSplit line '\t' with
    | p0 :: p1 :: p2 :: rest =>
      if rest = [] then none
      else
        let name := if isRemote then cutPre "refs/remotes/" p0 else cutPre "refs/heads/" p0
        some { name := name, fullRef := p0, isCurrent := false, isRemote := isRemote,
               upstream := none, headCommitSHA := some p1,
               headCommitAt := parseDate p2, lastCommitMessage := some (joinTab rest) }
    | _ => none

/-- `core.parseForEachRef`: split the trimmed raw output on newlines and
parse each line, dropping malformed ones. -/
def parseForEachRef (parseDate : String → Option Int) (out : String)
    (isRemote : Bool) : List Branch :=
  (goSplit (goTrim out) '\n').filterMap (parseRefLine parseDate isRemote)

/-- The current-branch marking pass of `core.ListBranches`: when the
lookup succeeded, every local branch with the matching name gets
`isCurrent := true`; on lookup failure the set is untouched. -/
def markCurrent (cur : Except String Branch) (bs : List Branch) : List Branch :=
  match cur with
  | .error _ => bs
  | .ok c =>
    bs.map (fun b =>
      if b.isRemote = false ∧ b.name = c.name then { b with isCurrent := true } else b)

/-- The filter predicate of `core.ListBranches`: case-insensitive
substring containment of the pattern in the branch name. -/
def matchesPattern (pattern : String) (b : Branch) : Bool :=
  goContains (goToLower b.name) (goToLower pattern)

/-- The text-filter pass of `core.ListBranches`: applied only when the
pattern is non-empty. -/
def filterBranches (pattern : String) (bs : List Branch) : List Branch :=
  if pattern = "" then bs else bs.filter (matchesPattern pattern)

/-- The sort key for recency: `HeadCommitAt`, with `nil` read as the
`time.Time` zero value. -/
def keyTime (b : Branch) : Int :=
  b.headCommitAt.getD 0

/-- The comparison closure passed to `sort.Slice` in `core.ListBranches`:
any `SortBy` other than `"name"` sorts by recency, and any `SortDir`
other than `"asc"` sorts descending. -/
def branchLess (sortBy sortDir : String) (a b : Branch) : Bool :=
  if sortBy = "name" then
    if sortDir = "asc" then strLt a.name b.name else strLt b.name a.name
  else
    if sortDir = "asc" then decide (keyTime a < keyTime b) else decide (keyTime b < keyTime a)

/-- The non-strict order induced by `branchLess`; a list with no adjacent
inversions w.r.t. `branchLess` is exactly a list sorted w.r.t. this. -/
def sortLe (sortBy sortDir : String) (a b : Branch) : Prop :=
  branchLess sortBy sortDir b a = false

instance (sortBy sortDir : String) : DecidableRel (sortLe sortBy sortDir) := by
  intro a b
  unfold sortLe
  infer_instance

/-- The sort pass of `core.ListBranches` (`sort.Slice` with
`branchLess`); realised by a stable sort satisfying the `sort.Slice`
postcondition. -/
def sortBranches (sortBy sortDir : String) (bs : List Branch) : List Branch :=
  bs.insertionSort (sortLe sortBy sortDir)

/-- The mark–filter–sort prefix of the `core.ListBranches` pipeline: the
full result sequence before pagination. -/
def queryList (branches : List Branch) (cur : Except String Branch)
    (req : ListBranchesRequest) : List Branch :=
  sortBranches req.sortBy req.sortDir
    (filterBranches req.pattern (markCurrent cur branches))

/-- The pagination start index of `core.ListBranches`:
`start := (page-1)*pageSize; if start > total { start = total }`. -/
def pagStart (page pageSize total : Int) : Int :=
  if (page - 1) * pageSize > total then total else (page - 1) * pageSize

/-- The pagination end index of `core.ListBranches`:
`end := start + pageSize; if end > total { end = total }`. -/
def pagEndIdx (start pageSize total : Int) : Int :=
  if start + pageSize > total then total else start + pageSize

/-- The pure part of `core.ListBranches` after the git reads: page and
page-size coercion, current marking, filter, sort and pagination,
operating on the scope-unioned branch set `branches` and the
current-branch lookup outcome `cur`. -/
def listBranchesCore (branches : List Branch) (cur : Except String Branch)
    (req : ListBranchesRequest) : ListBranchesResponse :=
  let page := if req.page ≤ 0 then 1 else req.page
  let pageSize := if req.pageSize ≤ 0 then 50 else req.pageSize
  let bs := queryList branches cur req
  let total : Int := bs.length
  let start := pagStart page pageSize total
  let e := pagEndIdx start pageSize total
  { items := (bs.drop start.toNat).take (e - start).toNat,
    page := page, pageSize := pageSize, total := total,
    hasPrev := decide (page > 1), hasNext := decide (e < total) }

/-- The local-refs git read of `core.ListBranches`: consulted only when
the scope includes local branches. -/
def localsFor (scope : Scope) (gitLocal : Except String String)
    (parseDate : String → Option Int) : Except String (List Branch) :=
  if scope = Scope.ScopeLocal ∨ scope = Scope.ScopeAll then
    gitLocal.map (fun out => parseForEachRef parseDate out false)
  else .ok []

/-- The remote-refs git read of `core.ListBranches`: consulted only when
the scope includes remote branches. -/
def remotesFor (scope : Scope) (gitRemote : Except String String)
    (parseDate : String → Option Int) : Except String (List Branch) :=
  if scope = Scope.ScopeRemote ∨ scope = Scope.ScopeAll then
    gitRemote.map (fun out => parseForEachRef parseDate out true)
  else .ok []

/-- `core.ListBranches`: consult the local and/or remote ref listing
according to the scope (propagating a git failure), parse them, and run
the pure pipeline.  `gitLocal`/`gitRemote` are the raw `for-each-ref`
outputs, `curRaw` the raw `rev-parse` output. -/
def ListBranches (gitLocal gitRemote : Except String String)
    (parseDate : String → Option Int) (curRaw : Except String String)
    (req : ListBranchesRequest) : Except String ListBranchesResponse :=
  match localsFor req.scope gitLocal parseDate with
  | .error e => .error e
  | .ok locals =>
    match remotesFor req.scope gitRemote parseDate with
    | .error e => .error e
    | .ok remotes =>
      .ok (listBranchesCore (locals ++ remotes) (GetCurrentBranch curRaw) req)

/-- Observable outcome of `core.Checkout`: the reported previous branch
name, the error if any, and whether the external `git switch` command was
invoked at all. -/
structure CheckoutResult where
  prev : String
  err : Option String
  invokedGitSwitch : Bool
deriving DecidableEq, Repr

/-- `core.Checkout`: reject a blank target before touching git; look up
the current branch best-effort (failure leaves `prev` empty and does not
block the switch); then delegate to `git switch`, whose outcome is the
parameter `switchResult`. -/
def Checkout (curRaw : Except String String) (switchResult : Except String String)
    (name : String) (create : Bool) : CheckoutResult :=
  if goTrim name = "" then
    { prev := "", err := some "branch name required", invokedGitSwitch := false }
  else
    let prev :=
      match GetCurrentBranch curRaw with
      | .ok c => c.name
      | .error _ => ""
    match switchResult with
    | .ok _ => { prev := prev, err := none, invokedGitSwitch := true }
    | .error e => { prev := prev, err := some e, invokedGitSwitch := true }

/-- `tui.mode`: the two input modes of the selection state machine. -/
inductive TuiMode where
  | selectMode
  | filterMode
deriving DecidableEq, Repr

/-- Messages consumed by `tui.Model.Update`: key presses, completed list
queries (`listMsg`) and completed switches (`switchMsg`). -/
inductive TuiMsg where
  | key (s : String)
  | list (items : List Branch) (total : Int) (err : Option String)
  | switchDone (err : Option String)
deriving DecidableEq, Repr

/-- Commands emitted by `tui.Model.Update` (the background work it
schedules). -/
inductive TuiCmd where
  | noCmd
  | quit
  | refresh
  | selectNum (n : Int)
  | checkoutCmd (name : String)
deriving DecidableEq, Repr

/-- `tui.Model`: the selection session state.  `page`, `perPage` and
`totalPages` are the embedded fields of the bubbles paginator;
`filterText` is the text-input value. -/
structure TuiModel where
  repoPath : String
  scope : Scope
  filterText : String
  page : Int
  perPage : Int
  totalPages : Int
  items : List Branch
  total : Int
  cursor : Nat
  mode : TuiMode
  numberBuffer : String
  error : Option String
deriving DecidableEq, Repr

/-- `tui.New`: initial state; a non-positive page size is coerced to 25;
the paginator starts at page 0 with one total page. -/
def tuiNew (repoPath : String) (scope : Scope) (pageSize : Int) (pattern : String) : TuiModel :=
  { repoPath := repoPath, scope := scope, filterText := pattern,
    page := 0, perPage := if pageSize ≤ 0 then 25 else pageSize, totalPages := 1,
    items := [], total := 0, cursor := 0, mode := .selectMode,
    numberBuffer := "", error := none }

/-- bubbles `paginator.PrevPage`: decrement unless on the first page. -/
def pagPrev (m : TuiModel) : TuiModel :=
  if m.page > 0 then { m with page := m.page - 1 } else m

/-- bubbles `paginator.NextPage`: increment unless on the last page. -/
def pagNext (m : TuiModel) : TuiModel :=
  if m.page = m.totalPages - 1 then m else { m with page := m.page + 1 }

/-- bubbles `paginator.SetTotalPages`: derive a page count from an item
count, returning unchanged on a non-positive argument. -/
def pagSetTotalPages (m : TuiModel) (items : Int) : TuiModel :=
  if items < 1 then m
  else
    let n := Int.tdiv items m.perPage
    { m with totalPages := if Int.tmod items m.perPage > 0 then n + 1 else n }

/-- `tui.Model.Update`: one step of the selection state machine.  The
text-input widget is external; its effect on an unhandled key in filter
mode is modelled as appending single-character keys, and (as in the
source) any key press in filter mode triggers a refresh. -/
def tuiUpdate (m : TuiModel) (msg : TuiMsg) : TuiModel × TuiCmd :=
  match msg with
  | .key key =>
    match m.mode with
    | .selectMode =>
      if key = "ctrl+c" ∨ key = "q" then (m, .quit)
      else if key = "f" then ({ m with mode := .filterMode }, .noCmd)
      else if key = "enter" then
        if goTrim m.numberBuffer ≠ "" then
          let m2 := { m with numberBuffer := "" }
          match goAtoi (goTrim m.numberBuffer) with
          | none => ({ m2 with error := some "invalid selection" }, .noCmd)
          | some n =>
            if n ≤ 0 then ({ m2 with error := some "invalid selection" }, .noCmd)
            else (m2, .selectNum n)
        else if m.items = [] then (m, .noCmd)
        else (m, .checkoutCmd ((m.items.getD m.cursor default).name))
      else if key = "backspace" then
        ({ m with numberBuffer := ⟨m.numberBuffer.data.dropLast⟩ }, .noCmd)
      else if key = "up" ∨ key = "k" then
        if m.items = [] then (m, .noCmd)
        else if m.cursor > 0 then ({ m with cursor := m.cursor - 1 }, .noCmd)
        else ({ m with cursor := m.items.length - 1 }, .noCmd)
      else if key = "down" ∨ key = "j" then
        if m.items = [] then (m, .noCmd)
        else if m.cursor < m.items.length - 1 then ({ m with cursor := m.cursor + 1 }, .noCmd)
        else ({ m with cursor := 0 }, .noCmd)
      else if key = "pgup" ∨ key = "p" ∨ key = "left" then
        if m.page > 0 then ({ pagPrev m with cursor := 0 }, .refresh)
        else (m, .noCmd)
      else if key = "pgdn" ∨ key = "n" ∨ key = "right" then
        ({ pagNext m with cursor := 0 }, .refresh)
      else if key = "tab" then ({ m with numberBuffer := "" }, .noCmd)
      else
        match key.data with
        | [c] =>
          if '0' ≤ c ∧ c ≤ '9' then ({ m with numberBuffer := m.numberBuffer ++ key }, .noCmd)
          else (m, .noCmd)
        | _ => (m, .noCmd)
    | .filterMode =>
      if key = "ctrl+c" ∨ key = "q" then (m, .quit)
      else if key = "escape" ∨ key = "f" then ({ m with mode := .selectMode }, .noCmd)
      else if key = "tab" then ({ m with filterText := "" }, .refresh)
      else if key = "pgup" ∨ key = "p" ∨ key = "right" then
        if m.page > 0 then ({ pagPrev m with cursor := 0 }, .refresh)
        else (m, .noCmd)
      else if key = "pgdn" ∨ key = "n" ∨ key = "left" then
        ({ pagNext m with cursor := 0 }, .refresh)
      else
        let ft :=
          match key.data with
          | [c] => m.filterText ++ String.mk [c]
          | _ => m.filterText
        ({ m with filterText := ft }, .refresh)
  | .list items total err =>
    match err with
    | some e => ({ m with error := some e }, .noCmd)
    | none =>
      let m2 := { m with error := none, items := items, total := total }
      let perPage := if m2.perPage ≤ 0 then 50 else m2.perPage
      let m3 := pagSetTotalPages m2 (Int.tdiv (total + perPage - 1) perPage)
      if m3.items = [] then ({ m3 with cursor := 0 }, .noCmd)
      else if m3.cursor ≥ m3.items.length then
        ({ m3 with cursor := m3.items.length - 1 }, .noCmd)
      else (m3, .noCmd)
  | .switchDone err =>
    match err with
    | none => ({ m with error := none }, .quit)
    | some e => ({ m with error := some e }, .noCmd)

/-- Apply a sequence of messages to the state machine, keeping the state. -/
def tuiRun (m : TuiModel) (msgs : List TuiMsg) : TuiModel :=
  msgs.foldl (fun s msg => (tuiUpdate s msg).1) m

/-- The cursor invariant of the selection session state. -/
def cursorInv (m : TuiModel) : Prop :=
  (m.items = [] → m.cursor = 0) ∧ (m.items ≠ [] → m.cursor < m.items.length)

/-- Outcome of `tui.Model.selectByNumber` (the arm where the background
query succeeded; `branches`/`cur` are the branch set and current-branch
outcome the re-issued query sees). -/
inductive SelectOutcome where
  | invalid
  | rangeError
  | attemptSwitch (name : String)
deriving DecidableEq, Repr

/-- `tui.Model.selectByNumber`: resolve a 1-based absolute index to the
page containing it, re-query that page under the current filter and
scope, and attempt the switch for the branch at the in-page offset;
an out-of-range offset is a range error. -/
def selectByNumber (branches : List Branch) (cur : Except String Branch)
    (m : TuiModel) (n : Int) : SelectOutcome :=
  let perPage := if m.perPage ≤ 0 then 50 else m.perPage
  if n ≤ 0 then .invalid
  else
    let idx := n - 1
    let page := Int.tdiv idx perPage + 1
    let offset := Int.tmod idx perPage
    let resp := listBranchesCore branches cur
      { repoPath := m.repoPath, pattern := goTrim m.filterText, scope := m.scope,
        sortBy := "recency", sortDir := "desc", page := page, pageSize := perPage }
    if offset < 0 ∨ offset ≥ (resp.items.length : Int) then .rangeError
    else .attemptSwitch ((resp.items.getD offset.toNat default).name)

/-! ### General lemmas about the embedded query engine -/

theorem branchLess_recency (sd : String) (a b : Branch) :
    branchLess "recency" sd a b =
      (if sd = "asc" then decide (keyTime a < keyTime b)
       else decide (keyTime b < keyTime a)) := by
  unfold branchLess
  rw [if_neg (by decide : ¬("recency" : String) = "name")]

theorem sortBranches_perm (sortBy sortDir : String) (bs : List Branch) :
    (sortBranches sortBy sortDir bs).Perm bs :=
  List.perm_insertionSort (sortLe sortBy sortDir) bs

theorem mem_filterBranches {pattern : String} {bs : List Branch} {b : Branch}
    (h : b ∈ filterBranches pattern bs) : b ∈ bs := by
  unfold filterBranches at h
  split at h
  · exact h
  · exact (List.mem_filter.mp h).1

theorem items_subset_queryList (branches : List Branch) (cur : Except String Branch)
    (req : ListBranchesRequest) :
    (listBranchesCore branches cur req).items ⊆ queryList branches cur req := by
  intro b hb
  simp only [listBranchesCore] at hb
  exact ((List.take_sublist _ _).trans (List.drop_sublist _ _)).subset hb

theorem items_subset_marked (branches : List Branch) (cur : Except String Branch)
    (req : ListBranchesRequest) :
    (listBranchesCore branches cur req).items ⊆ markCurrent cur branches := by
  intro b hb
  have h1 := items_subset_queryList branches cur req hb
  have h2 : b ∈ filterBranches req.pattern (markCurrent cur branches) :=
    ((sortBranches_perm _ _ _).mem_iff).mp h1
  exact mem_filterBranches h2

theorem pagStart_min (p ps t : Int) : pagStart p ps t = min ((p - 1) * ps) t := by
  unfold pagStart
  split <;> omega

theorem pagEndIdx_min (s ps t : Int) : pagEndIdx s ps t = min (s + ps) t := by
  unfold pagEndIdx
  split <;> omega

theorem listBranchesCore_eq (branches : List Branch) (cur : Except String Branch)
    (req : ListBranchesRequest) (h1 : ¬ req.page ≤ 0) (h2 : ¬ req.pageSize ≤ 0) :
    listBranchesCore branches cur req =
      { items := ((queryList branches cur req).drop
            (pagStart req.page req.pageSize ((queryList branches cur req).length : Int)).toNat).take
            ((pagEndIdx (pagStart req.page req.pageSize ((queryList branches cur req).length : Int))
                req.pageSize ((queryList branches cur req).length : Int)
              - pagStart req.page req.pageSize ((queryList branches cur req).length : Int)).toNat),
        page := req.page, pageSize := req.pageSize,
        total := ((queryList branches cur req).length : Int),
        hasPrev := decide (req.page > 1),
        hasNext := decide (pagEndIdx (pagStart req.page req.pageSize
              ((queryList branches cur req).length : Int)) req.pageSize
              ((queryList branches cur req).length : Int)
            < ((queryList branches cur req).length : Int)) } := by
  simp only [listBranchesCore, if_neg h1, if_neg h2]

theorem parseRefLine_isCurrent {parseDate : String → Option Int} {isRemote : Bool}
    {line : String} {b : Branch} (h : parseRefLine parseDate isRemote line = some b) :
    b.isCurrent = false := by
  unfold parseRefLine at h
  split at h
  · exact absurd h (by simp)
  · split at h
    · split at h
      · exact absurd h (by simp)
      · cases h
        rfl
    · exact absurd h (by simp)

theorem parseForEachRef_isCurrent {parseDate : String → Option Int} {out : String}
    {isRemote : Bool} {b : Branch} (h : b ∈ parseForEachRef parseDate out isRemote) :
    b.isCurrent = false := by
  unfold parseForEachRef at h
  obtain ⟨line, _, hline⟩ := List.mem_filterMap.mp h
  exact parseRefLine_isCurrent hline

theorem localsFor_isCurrent {scope : Scope} {gitLocal : Except String String}
    {parseDate : String → Option Int} {ls : List Branch}
    (h : localsFor scope gitLocal parseDate = .ok ls) :
    ∀ b ∈ ls, b.isCurrent = false := by
  unfold localsFor at h
  split at h
  · cases gitLocal with
    | error e => exact absurd h (by simp [Except.map])
    | ok out =>
      simp only [Except.map, Except.ok.injEq] at h
      subst h
      exact fun b hb => parseForEachRef_isCurrent hb
  · cases h
    intro b hb
    exact absurd hb (List.not_mem_nil b)

theorem remotesFor_isCurrent {scope : Scope} {gitRemote : Except String String}
    {parseDate : String → Option Int} {rs : List Branch}
    (h : remotesFor scope gitRemote parseDate = .ok rs) :
    ∀ b ∈ rs, b.isCurrent = false := by
  unfold remotesFor at h
  split at h
  · cases gitRemote with
    | error e => exact absurd h (by simp [Except.map])
    | ok out =>
      simp only [Except.map, Except.ok.injEq] at h
      subst h
      exact fun b hb => parseForEachRef_isCurrent hb
  · cases h
    intro b hb
    exact absurd hb (List.not_mem_nil b)

theorem markCurrent_ok_mem {c : Branch} {bs : List Branch}
    (hbs : ∀ b ∈ bs, b.isCurrent = false) :
    ∀ b ∈ markCurrent (.ok c) bs,
      (b.isCurrent = true ↔ (b.isRemote = false ∧ b.name = c.name)) := by
  intro b hb
  simp only [markCurrent, List.mem_map] at hb
  obtain ⟨a, ha, rfl⟩ := hb
  by_cases hcond : a.isRemote = false ∧ a.name = c.name
  · rw [if_pos hcond]
    simpa using hcond
  · rw [if_neg hcond]
    rw [hbs a ha]
    simp only [Bool.false_eq_true, false_iff]
    exact hcond

theorem markCurrent_err_mem {e : String} {bs : List Branch}
    (hbs : ∀ b ∈ bs, b.isCurrent = false) :
    ∀ b ∈ markCurrent (.error e) bs, b.isCurrent = false := by
  intro b hb
  exact hbs b hb

/-! ### Concrete values used by witnesses and counterexamples -/

/-- A concrete local branch with the given name and optional timestamp. -/
def demoBranch (n : String) (t : Option Int) : Branch :=
  { name := n, fullRef := "refs/heads/" ++ n, isCurrent := false, isRemote := false,
    upstream := none, headCommitSHA := none, headCommitAt := t, lastCommitMessage := none }

def demoA : Branch := demoBranch "alpha" (some 5)

def demoB : Branch := demoBranch "beta" (some 4)

def demoC : Branch := demoBranch "gamma" (some 3)

def demo3 : List Branch := [demoA, demoB, demoC]

def req1 : ListBranchesRequest :=
  { repoPath := "", pattern := "", scope := .ScopeLocal, sortBy := "recency",
    sortDir := "desc", page := 2, pageSize := 2 }

/-! ### C9 -/

/-- C9: `Checkout` rejects an empty or whitespace-only target name with a
validation error without invoking the external tool; for a non-blank
target, a failure of the preliminary current-branch lookup does not block
the switch attempt, and the previous-branch name is simply empty. -/
theorem c9_checkout_validation (curRaw switchResult : Except String String)
    (name : String) (create : Bool) :
    (goTrim name = "" →
      Checkout curRaw switchResult name create =
        { prev := "", err := some "branch name required", invokedGitSwitch := false })
    ∧ (goTrim name ≠ "" →
      (Checkout curRaw switchResult name create).invokedGitSwitch = true)
    ∧ (goTrim name ≠ "" → ∀ e, GetCurrentBranch curRaw = .error e →
      (Checkout curRaw switchResult name create).prev = "") := by
  refine ⟨?_, ?_, ?_⟩
  · intro h
    unfold Checkout
    rw [if_pos h]
  · intro h
    unfold Checkout
    rw [if_neg h]
    cases switchResult <;> rfl
  · intro h e he
    unfold Checkout
    rw [if_neg h, he]
    cases switchResult <;> rfl

theorem c9_checkout_validation_witness :
    goTrim "  " = ""
    ∧ Checkout (.ok "main") (.ok "") "  " false =
        { prev := "", err := some "branch name required", invokedGitSwitch := false }
    ∧ goTrim "dev" ≠ ""
    ∧ (Checkout (.error "boom") (.ok "") "dev" false).invokedGitSwitch = true
    ∧ (Checkout (.error "boom") (.ok "") "dev" false).prev = "" :=
  ⟨by decide,
   (c9_checkout_validation (.ok "main") (.ok "") "  " false).1 (by decide),
   by decide,
   (c9_checkout_validation (.error "boom") (.ok "") "dev" false).2.1 (by decide),
   (c9_checkout_validation (.error "boom") (.ok "") "dev" false).2.2 (by decide) "boom" rfl⟩

/-! ### C10 -/

theorem insertionSort_congr {r s : Branch → Branch → Prop} (ir : DecidableRel r)
    (is' : DecidableRel s) (hrs : r = s) (bs : List Branch) :
    @List.insertionSort _ r ir bs = @List.insertionSort _ s is' bs := by
  subst hrs
  exact congrArg (fun i => @List.insertionSort _ r i bs) (Subsingleton.elim ir is')

theorem sortBranches_congr {sb1 sd1 sb2 sd2 : String}
    (h : branchLess sb1 sd1 = branchLess sb2 sd2) (bs : List Branch) :
    sortBranches sb1 sd1 bs = sortBranches sb2 sd2 bs := by
  unfold sortBranches
  refine insertionSort_congr _ _ ?_ bs
  funext a b
  unfold sortLe
  rw [h]

/-- C10: the sort parameters of `ListBranches` never cause an error: any
`SortBy` other than `"name"` sorts by recency, any `SortDir` other than
`"asc"` is treated as `"desc"`, and with successful git reads the query
returns a result for every `SortBy`/`SortDir` value. -/
theorem c10_sort_defaults (branches : List Branch) (cur : Except String Branch)
    (req : ListBranchesRequest) :
    (req.sortBy ≠ "name" →
      listBranchesCore branches cur req
        = listBranchesCore branches cur { req with sortBy := "recency" })
    ∧ (req.sortDir ≠ "asc" →
      listBranchesCore branches cur req
        = listBranchesCore branches cur { req with sortDir := "desc" })
    ∧ (∀ lo ro : String, ∀ parseDate : String → Option Int,
        ∀ curRaw : Except String String,
        (ListBranches (.ok lo) (.ok ro) parseDate curRaw req).isOk = true) := by
  refine ⟨?_, ?_, ?_⟩
  · intro h
    have hbl : branchLess req.sortBy req.sortDir = branchLess "recency" req.sortDir := by
      funext a b
      unfold branchLess
      rw [if_neg h, if_neg (by decide : ¬("recency" : String) = "name")]
    have hq : queryList branches cur req
        = queryList branches cur { req with sortBy := "recency" } := by
      simp only [queryList]
      exact sortBranches_congr hbl _
    simp only [listBranchesCore]
    rw [hq]
  · intro h
    have hbl : branchLess req.sortBy req.sortDir = branchLess req.sortBy "desc" := by
      funext a b
      unfold branchLess
      by_cases hn : req.sortBy = "name"
      · rw [if_pos hn, if_pos hn, if_neg h, if_neg (by decide : ¬("desc" : String) = "asc")]
      · rw [if_neg hn, if_neg hn, if_neg h, if_neg (by decide : ¬("desc" : String) = "asc")]
    have hq : queryList branches cur req
        = queryList branches cur { req with sortDir := "desc" } := by
      simp only [queryList]
      exact sortBranches_congr hbl _
    simp only [listBranchesCore]
    rw [hq]
  · intro lo ro parseDate curRaw
    cases hs : req.scope <;>
      simp [ListBranches, localsFor, remotesFor, hs, Except.map, Except.isOk, Except.toBool]

theorem c10_sort_defaults_witness :
    listBranchesCore demo3 (.error "x") { req1 with sortBy := "", sortDir := "" }
        = listBranchesCore demo3 (.error "x") { req1 with sortBy := "recency", sortDir := "" }
    ∧ listBranchesCore demo3 (.error "x") { req1 with sortBy := "", sortDir := "" }
        = listBranchesCore demo3 (.error "x") { req1 with sortBy := "", sortDir := "desc" }
    ∧ (ListBranches (.ok "") (.ok "") (fun _ => none) (.error "detached HEAD")
        { req1 with sortBy := "", sortDir := "" }).isOk = true :=
  ⟨(c10_sort_defaults demo3 (.error "x") { req1 with sortBy := "", sortDir := "" }).1
      (by decide),
   (c10_sort_defaults demo3 (.error "x") { req1 with sortBy := "", sortDir := "" }).2.1
      (by decide),
   (c10_sort_defaults demo3 (.error "x") { req1 with sortBy := "", sortDir := "" }).2.2
      "" "" (fun _ => none) (.error "detached HEAD")⟩

/-! ### C2 -/

/-- C2: for every branch set and non-empty pattern the filtered sequence
of `ListBranches` is exactly the sublist of branches whose name contains
the pattern case-insensitively — every kept branch matches, no
non-matching branch is kept, every returned page item matches — and an
empty pattern performs no filtering. -/
theorem c2_filter (branches : List Branch) (cur : Except String Branch)
    (req : ListBranchesRequest) (hp : req.pattern ≠ "") :
    filterBranches req.pattern (markCurrent cur branches)
        = (markCurrent cur branches).filter (matchesPattern req.pattern)
    ∧ (∀ b ∈ filterBranches req.pattern (markCurrent cur branches),
        matchesPattern req.pattern b = true)
    ∧ (∀ b ∈ markCurrent cur branches, matchesPattern req.pattern b = false →
        b ∉ filterBranches req.pattern (markCurrent cur branches))
    ∧ (∀ b ∈ (listBranchesCore branches cur req).items, matchesPattern req.pattern b = true)
    ∧ (∀ bs : List Branch, filterBranches "" bs = bs) := by
  have hfb : ∀ bs : List Branch,
      filterBranches req.pattern bs = bs.filter (matchesPattern req.pattern) := by
    intro bs
    unfold filterBranches
    rw [if_neg hp]
  refine ⟨hfb _, ?_, ?_, ?_, ?_⟩
  · intro b hb
    rw [hfb] at hb
    exact (List.mem_filter.mp hb).2
  · intro b _ hfalse hmem
    rw [hfb] at hmem
    have hmat := (List.mem_filter.mp hmem).2
    rw [hfalse] at hmat
    exact absurd hmat (by simp)
  · intro b hb
    have h1 := items_subset_queryList branches cur req hb
    have h2 : b ∈ filterBranches req.pattern (markCurrent cur branches) :=
      ((sortBranches_perm _ _ _).mem_iff).mp h1
    rw [hfb] at h2
    exact (List.mem_filter.mp h2).2
  · intro bs
    unfold filterBranches
    rw [if_pos rfl]

def demoFeat : Branch := demoBranch "feat/alpha" (some 5)

def demoFix : Branch := demoBranch "fix/beta" (some 4)

def req2 : ListBranchesRequest := { req1 with pattern := "FEAT", page := 1 }

theorem c2_filter_witness :
    req2.pattern ≠ ""
    ∧ filterBranches req2.pattern (markCurrent (.error "x") [demoFeat, demoFix])
        = (markCurrent (.error "x") [demoFeat, demoFix]).filter (matchesPattern req2.pattern)
    ∧ filterBranches req2.pattern (markCurrent (.error "x") [demoFeat, demoFix]) = [demoFeat] :=
  ⟨by decide,
   (c2_filter [demoFeat, demoFix] (.error "x") req2 (by decide)).1,
   by decide⟩

/-! ### C1 -/

/-- C1: for every branch set and request with `page ≥ 1` and
`pageSize ≥ 1`, the returned page of `ListBranches` is the slice
`[start, end)` of the filtered, sorted sequence, where
`start = (page-1)*pageSize` clamped to `[0, total]` and
`end = min(start+pageSize, total)`; `hasPrev = page > 1`,
`hasNext = end < total`, `total` is the post-filter pre-pagination
count, and a page beyond the last yields an empty item slice. -/
theorem c1_pagination (branches : List Branch) (cur : Except String Branch)
    (req : ListBranchesRequest) (h1 : 1 ≤ req.page) (h2 : 1 ≤ req.pageSize)
    (L : List Branch) (hL : L = queryList branches cur req)
    (total start e : Int) (htotal : total = (L.length : Int))
    (hstart : start = max 0 (min ((req.page - 1) * req.pageSize) total))
    (he : e = min (start + req.pageSize) total) :
    (listBranchesCore branches cur req).items = (L.drop start.toNat).take (e - start).toNat
    ∧ (listBranchesCore branches cur req).hasPrev = decide (req.page > 1)
    ∧ (listBranchesCore branches cur req).hasNext = decide (e < total)
    ∧ (listBranchesCore branches cur req).total = total
    ∧ (total ≤ start → (listBranchesCore branches cur req).items = []) := by
  subst hL htotal
  have hP : 0 ≤ (req.page - 1) * req.pageSize :=
    mul_nonneg (by omega) (by omega)
  have hcore := listBranchesCore_eq branches cur req (by omega) (by omega)
  have hs : pagStart req.page req.pageSize ((queryList branches cur req).length : Int)
      = start := by
    rw [pagStart_min]
    omega
  have hee : pagEndIdx start req.pageSize ((queryList branches cur req).length : Int)
      = e := by
    rw [pagEndIdx_min]
    omega
  rw [hcore, hs, hee]
  refine ⟨rfl, rfl, rfl, rfl, ?_⟩
  intro hts
  have hzero : (e - start).toNat = 0 := by omega
  rw [hzero, List.take_zero]

theorem c1_pagination_witness :
    (listBranchesCore demo3 (.error "x") req1).items
      = ((queryList demo3 (.error "x") req1).drop ((2 : Int)).toNat).take
          (((3 : Int) - 2)).toNat :=
  (c1_pagination demo3 (.error "x") req1 (by decide) (by decide)
    (queryList demo3 (.error "x") req1) rfl 3 2 3 (by decide) (by decide) (by decide)).1

/-! ### C4 -/

theorem flatten_chunks {α : Type} (ps : Nat) (hps : 0 < ps) :
    ∀ (N : Nat) (l : List α), l.length ≤ N * ps →
      ((List.range N).map (fun k => (l.drop (k * ps)).take ps)).flatten = l := by
  intro N
  induction N with
  | zero =>
    intro l hl
    simp only [Nat.zero_mul, Nat.le_zero] at hl
    simp [List.length_eq_zero.mp hl]
  | succ N ih =>
    intro l hl
    have hmul : (N + 1) * ps = N * ps + ps := Nat.succ_mul N ps
    rw [List.range_succ_eq_map, List.map_cons, List.map_map, List.flatten_cons]
    have hmap : (List.range N).map ((fun k => (l.drop (k * ps)).take ps) ∘ Nat.succ)
        = (List.range N).map (fun k => (((l.drop ps).drop (k * ps)).take ps)) := by
      refine List.map_congr_left ?_
      intro k _
      simp only [Function.comp_apply]
      rw [List.drop_drop]
      have harg : Nat.succ k * ps = ps + k * ps := by
        simp only [Nat.succ_eq_add_one]
        ring
      rw [harg]
    rw [hmap]
    have hdlen : (l.drop ps).length ≤ N * ps := by
      rw [List.length_drop]
      omega
    rw [ih (l.drop ps) hdlen]
    simp only [Nat.zero_mul, List.drop_zero]
    exact List.take_append_drop ps l

theorem le_ceil_mul (len ps : Nat) (hps : 0 < ps) :
    len ≤ ((len + ps - 1) / ps) * ps := by
  have h1 := Nat.div_add_mod (len + ps - 1) ps
  have h2 : (len + ps - 1) % ps < ps := Nat.mod_lt _ hps
  have h3 : ps * ((len + ps - 1) / ps) = ((len + ps - 1) / ps) * ps :=
    Nat.mul_comm _ _
  omega

theorem items_length_le (branches : List Branch) (cur : Except String Branch)
    (req : ListBranchesRequest) (hps : 1 ≤ req.pageSize) :
    (listBranchesCore branches cur req).items.length ≤ req.pageSize.toNat := by
  have hps0 : ¬ req.pageSize ≤ 0 := by omega
  simp only [listBranchesCore, if_neg hps0]
  rw [List.length_take]
  refine le_trans (Nat.min_le_left _ _) ?_
  rw [pagEndIdx_min]
  omega

theorem items_chunk (branches : List Branch) (cur : Except String Branch)
    (rp pat : String) (sc : Scope) (sb sd : String) (ps : Int) (hps : 1 ≤ ps) (k : Nat)
    (hk : k * ps.toNat ≤ (queryList branches cur ⟨rp, pat, sc, sb, sd, 1, ps⟩).length) :
    (listBranchesCore branches cur ⟨rp, pat, sc, sb, sd, (k : Int) + 1, ps⟩).items
      = ((queryList branches cur ⟨rp, pat, sc, sb, sd, 1, ps⟩).drop
          (k * ps.toNat)).take ps.toNat := by
  have hQ : queryList branches cur ⟨rp, pat, sc, sb, sd, (k : Int) + 1, ps⟩
      = queryList branches cur ⟨rp, pat, sc, sb, sd, 1, ps⟩ := rfl
  have hps0 : ¬ ps ≤ 0 := by omega
  have hpage : ¬ ((k : Int) + 1) ≤ 0 := by omega
  have hcast : ((ps.toNat : Nat) : Int) = ps := Int.toNat_of_nonneg (by omega)
  simp only [listBranchesCore, if_neg hps0, if_neg hpage, hQ]
  have hS : pagStart ((k : Int) + 1) ps
      ((queryList branches cur ⟨rp, pat, sc, sb, sd, 1, ps⟩).length : Int)
      = ((k * ps.toNat : Nat) : Int) := by
    rw [pagStart_min]
    have h1 : ((k : Int) + 1 - 1) * ps = ((k * ps.toNat : Nat) : Int) := by
      push_cast [hcast]
      ring
    have h2 : ((k * ps.toNat : Nat) : Int)
        ≤ ((queryList branches cur ⟨rp, pat, sc, sb, sd, 1, ps⟩).length : Int) :=
      Int.ofNat_le.mpr hk
    rw [h1]
    omega
  rw [hS, pagEndIdx_min, Int.toNat_natCast]
  rcases le_or_lt (k * ps.toNat + ps.toNat)
      (queryList branches cur ⟨rp, pat, sc, sb, sd, 1, ps⟩).length with hcase | hcase
  · have hcount : (min (((k * ps.toNat : Nat) : Int) + ps)
        ((queryList branches cur ⟨rp, pat, sc, sb, sd, 1, ps⟩).length : Int)
        - ((k * ps.toNat : Nat) : Int)).toNat = ps.toNat := by
      omega
    rw [hcount]
  · have hd : ((queryList branches cur ⟨rp, pat, sc, sb, sd, 1, ps⟩).drop
        (k * ps.toNat)).length
        = (queryList branches cur ⟨rp, pat, sc, sb, sd, 1, ps⟩).length - k * ps.toNat :=
      List.length_drop _ _
    have hcount : (min (((k * ps.toNat : Nat) : Int) + ps)
        ((queryList branches cur ⟨rp, pat, sc, sb, sd, 1, ps⟩).length : Int)
        - ((k * ps.toNat : Nat) : Int)).toNat
        = (queryList branches cur ⟨rp, pat, sc, sb, sd, 1, ps⟩).length - k * ps.toNat := by
      omega
    rw [hcount, List.take_of_length_le (by omega), List.take_of_length_le (by omega)]

/-- C4: for every branch set, pattern, sort key and direction, and every
pageSize ≥ 1, each page returned by `ListBranches` has at most pageSize
items, and concatenating the item slices of pages 1 through
ceil(total/pageSize) in order reproduces the full filtered, sorted
sequence exactly once each. -/
theorem c4_page_partition (branches : List Branch) (cur : Except String Branch)
    (rp pat : String) (sc : Scope) (sb sd : String) (ps : Int) (hps : 1 ≤ ps)
    (L : List Branch)
    (hL : L = queryList branches cur ⟨rp, pat, sc, sb, sd, 1, ps⟩)
    (N : Nat) (hN : N = (L.length + ps.toNat - 1) / ps.toNat) :
    (∀ page : Int,
      (listBranchesCore branches cur ⟨rp, pat, sc, sb, sd, page, ps⟩).items.length
        ≤ ps.toNat)
    ∧ ((List.range N).map
          (fun k : Nat => (listBranchesCore branches cur
            ⟨rp, pat, sc, sb, sd, (k : Int) + 1, ps⟩).items)).flatten
        = L := by
  subst hL
  constructor
  · intro page
    exact items_length_le branches cur ⟨rp, pat, sc, sb, sd, page, ps⟩ hps
  · have hpsN : 0 < ps.toNat := by omega
    have hNps : N * ps.toNat
        ≤ (queryList branches cur ⟨rp, pat, sc, sb, sd, 1, ps⟩).length + ps.toNat - 1 := by
      rw [hN]
      exact Nat.div_mul_le_self _ _
    have hmap : (List.range N).map
          (fun k : Nat => (listBranchesCore branches cur
            ⟨rp, pat, sc, sb, sd, (k : Int) + 1, ps⟩).items)
        = (List.range N).map
          (fun k : Nat => (((queryList branches cur ⟨rp, pat, sc, sb, sd, 1, ps⟩).drop
            (k * ps.toNat)).take ps.toNat)) := by
      refine List.map_congr_left ?_
      intro k hk
      have hkN : k < N := List.mem_range.mp hk
      have hsucc : (k + 1) * ps.toNat = k * ps.toNat + ps.toNat := Nat.succ_mul _ _
      have hmono : (k + 1) * ps.toNat ≤ N * ps.toNat :=
        Nat.mul_le_mul_right _ (by omega)
      exact items_chunk branches cur rp pat sc sb sd ps hps k (by omega)
    rw [hmap]
    refine flatten_chunks ps.toNat hpsN N _ ?_
    rw [hN]
    exact le_ceil_mul _ _ hpsN

theorem c4_page_partition_witness :
    ((List.range 2).map (fun k : Nat =>
        (listBranchesCore demo3 (.error "x")
          ⟨"", "", Scope.ScopeLocal, "recency", "desc", (k : Int) + 1, 2⟩).items)).flatten
      = queryList demo3 (.error "x") ⟨"", "", Scope.ScopeLocal, "recency", "desc", 1, 2⟩ :=
  (c4_page_partition demo3 (.error "x") "" "" .ScopeLocal "recency" "desc" 2 (by decide)
    _ rfl 2 (by decide)).2

/-! ### C3 -/

def bAbsent : Branch := demoBranch "absent" none

def bZero : Branch := demoBranch "zero" (some 0)

/-- C3 counterexample: under recency sorting with direction desc, a branch
with an absent timestamp is placed BEFORE a branch that has a timestamp,
when the present timestamp equals the `time.Time` zero value (which an
RFC3339 date can produce): absent entries compare as the zero value, so
the two tie and input order is kept. -/
theorem c3_recency_nil_cex :
    bAbsent.headCommitAt = none
    ∧ bZero.headCommitAt = some 0
    ∧ sortBranches "recency" "desc" [bAbsent, bZero] = [bAbsent, bZero] := by
  decide

theorem branchLess_recency_desc (a b : Branch) :
    branchLess "recency" "desc" a b = decide (keyTime b < keyTime a) := by
  rw [branchLess_recency, if_neg (by decide : ¬("desc" : String) = "asc")]

theorem branchLess_recency_asc (a b : Branch) :
    branchLess "recency" "asc" a b = decide (keyTime a < keyTime b) := by
  rw [branchLess_recency, if_pos rfl]

theorem sortLe_recency_desc (a b : Branch) :
    sortLe "recency" "desc" a b ↔ keyTime b ≤ keyTime a := by
  unfold sortLe
  rw [branchLess_recency_desc]
  simp [decide_eq_false_iff_not]

theorem sortLe_recency_asc (a b : Branch) :
    sortLe "recency" "asc" a b ↔ keyTime a ≤ keyTime b := by
  unfold sortLe
  rw [branchLess_recency_asc]
  simp [decide_eq_false_iff_not]

theorem sorted_sortBranches_recency_desc (bs : List Branch) :
    List.Sorted (sortLe "recency" "desc") (sortBranches "recency" "desc" bs) := by
  haveI htot : IsTotal Branch (sortLe "recency" "desc") := ⟨by
    intro a b
    rw [sortLe_recency_desc, sortLe_recency_desc]
    omega⟩
  haveI htrans : IsTrans Branch (sortLe "recency" "desc") := ⟨by
    intro a b c hab hbc
    rw [sortLe_recency_desc] at hab hbc ⊢
    omega⟩
  exact List.sorted_insertionSort _ _

theorem sorted_sortBranches_recency_asc (bs : List Branch) :
    List.Sorted (sortLe "recency" "asc") (sortBranches "recency" "asc" bs) := by
  haveI htot : IsTotal Branch (sortLe "recency" "asc") := ⟨by
    intro a b
    rw [sortLe_recency_asc, sortLe_recency_asc]
    omega⟩
  haveI htrans : IsTrans Branch (sortLe "recency" "asc") := ⟨by
    intro a b c hab hbc
    rw [sortLe_recency_asc] at hab hbc ⊢
    omega⟩
  exact List.sorted_insertionSort _ _

/-- C3 amended: absent timestamps compare as the oldest representable
value (the `time.Time` zero value, modelled as `0`), and the comparator
never fails on a missing date.  Consequently, under recency/desc every
branch with an absent timestamp is placed after every branch whose
timestamp is strictly later than the zero value, and under recency/asc
before it.  (The unamended claim fails only when a present timestamp
equals the zero value, as the counterexample shows.) -/
theorem c3_recency_nil_order :
    (∀ (bs : List Branch) (i j : Fin (sortBranches "recency" "desc" bs).length),
      ((sortBranches "recency" "desc" bs).get i).headCommitAt = none →
      0 < keyTime ((sortBranches "recency" "desc" bs).get j) →
      (j : Nat) < i)
    ∧ (∀ (bs : List Branch) (i j : Fin (sortBranches "recency" "asc" bs).length),
      ((sortBranches "recency" "asc" bs).get i).headCommitAt = none →
      0 < keyTime ((sortBranches "recency" "asc" bs).get j) →
      (i : Nat) < j) := by
  constructor
  · intro bs i j hni hpj
    have h0 : keyTime ((sortBranches "recency" "desc" bs).get i) = 0 := by
      unfold keyTime
      rw [hni]
      rfl
    by_contra hcon
    push_neg at hcon
    have hne : (i : Nat) ≠ (j : Nat) := by
      intro h
      have hfin : i = j := Fin.ext h
      rw [hfin] at h0
      omega
    have hilt : i < j := by
      rw [Fin.lt_def]
      omega
    have hrel := (sorted_sortBranches_recency_desc bs).rel_get_of_lt hilt
    rw [sortLe_recency_desc] at hrel
    omega
  · intro bs i j hni hpj
    have h0 : keyTime ((sortBranches "recency" "asc" bs).get i) = 0 := by
      unfold keyTime
      rw [hni]
      rfl
    by_contra hcon
    push_neg at hcon
    have hne : (i : Nat) ≠ (j : Nat) := by
      intro h
      have hfin : i = j := Fin.ext h
      rw [hfin] at h0
      omega
    have hjlt : j < i := by
      rw [Fin.lt_def]
      omega
    have hrel := (sorted_sortBranches_recency_asc bs).rel_get_of_lt hjlt
    rw [sortLe_recency_asc] at hrel
    omega

theorem c3_recency_nil_order_witness :
    ((sortBranches "recency" "desc" [demoA, bAbsent]).get ⟨1, by decide⟩).headCommitAt = none
    ∧ 0 < keyTime ((sortBranches "recency" "desc" [demoA, bAbsent]).get ⟨0, by decide⟩)
    ∧ (0 : Nat) < 1 :=
  ⟨by decide, by decide,
   c3_recency_nil_order.1 [demoA, bAbsent] ⟨1, by decide⟩ ⟨0, by decide⟩
     (by decide) (by decide)⟩

/-! ### C5 -/

theorem ListBranches_ok_elim {gitLocal gitRemote : Except String String}
    {parseDate : String → Option Int} {curRaw : Except String String}
    {req : ListBranchesRequest} {resp : ListBranchesResponse}
    (h : ListBranches gitLocal gitRemote parseDate curRaw req = .ok resp) :
    ∃ locals remotes, localsFor req.scope gitLocal parseDate = .ok locals
      ∧ remotesFor req.scope gitRemote parseDate = .ok remotes
      ∧ resp = listBranchesCore (locals ++ remotes) (GetCurrentBranch curRaw) req := by
  unfold ListBranches at h
  cases hl : localsFor req.scope gitLocal parseDate with
  | error e =>
    rw [hl] at h
    exact absurd h (by simp)
  | ok locals =>
    rw [hl] at h
    cases hr : remotesFor req.scope gitRemote parseDate with
    | error e =>
      rw [hr] at h
      exact absurd h (by simp)
    | ok remotes =>
      rw [hr] at h
      simp only [Except.ok.injEq] at h
      exact ⟨locals, remotes, rfl, rfl, h.symm⟩

/-- C5: in every `ListBranches` result, when the current-branch lookup
succeeds a returned branch has `isCurrent = true` iff it is local and its
name equals the current branch's name — remote entries are never marked
current even on a textual name match; when the lookup fails (for example
a detached head) the query's success does not depend on the lookup
outcome and the result contains zero `isCurrent = true` entries. -/
theorem c5_current_marking (gitLocal gitRemote : Except String String)
    (parseDate : String → Option Int) (curRaw : Except String String)
    (req : ListBranchesRequest) (resp : ListBranchesResponse)
    (hresp : ListBranches gitLocal gitRemote parseDate curRaw req = .ok resp) :
    (∀ c, GetCurrentBranch curRaw = .ok c →
      ∀ b ∈ resp.items, (b.isCurrent = true ↔ (b.isRemote = false ∧ b.name = c.name)))
    ∧ (∀ e, GetCurrentBranch curRaw = .error e → ∀ b ∈ resp.items, b.isCurrent = false)
    ∧ (∀ curRaw2 : Except String String,
        (ListBranches gitLocal gitRemote parseDate curRaw2 req).isOk
          = (ListBranches gitLocal gitRemote parseDate curRaw req).isOk) := by
  obtain ⟨locals, remotes, hl, hr, hre⟩ := ListBranches_ok_elim hresp
  subst hre
  have hfalse : ∀ b ∈ locals ++ remotes, b.isCurrent = false := by
    intro b hb
    rcases List.mem_append.mp hb with h | h
    · exact localsFor_isCurrent hl b h
    · exact remotesFor_isCurrent hr b h
  refine ⟨?_, ?_, ?_⟩
  · intro c hc b hb
    have hmem := items_subset_marked _ _ _ hb
    rw [hc] at hmem
    exact markCurrent_ok_mem hfalse b hmem
  · intro e he b hb
    have hmem := items_subset_marked _ _ _ hb
    rw [he] at hmem
    exact hfalse b hmem
  · intro curRaw2
    unfold ListBranches
    rw [hl, hr]
    rfl

def demoLocalOut : String :=
  "refs/heads/main\tsha1\td1\tmsg one\nrefs/heads/dev\tsha2\td2\tmsg two"

def pd0 : String → Option Int := fun _ => none

def req5 : ListBranchesRequest :=
  ⟨"", "", .ScopeLocal, "recency", "desc", 1, 50⟩

def resp5 : ListBranchesResponse :=
  listBranchesCore (parseForEachRef pd0 demoLocalOut false ++ [])
    (GetCurrentBranch (.ok "main")) req5

def demoCurrent : Branch :=
  { name := "main", fullRef := "refs/heads/main", isCurrent := true, isRemote := false,
    upstream := none, headCommitSHA := none, headCommitAt := none,
    lastCommitMessage := none }

theorem c5_current_marking_witness :
    ((resp5.items.getD 0 default).isCurrent = true
      ↔ ((resp5.items.getD 0 default).isRemote = false
          ∧ (resp5.items.getD 0 default).name = demoCurrent.name)) :=
  (c5_current_marking (.ok demoLocalOut) (.error "no remote") pd0 (.ok "main") req5 resp5
    rfl).1 demoCurrent rfl _ (by decide)

/-! ### C6 -/

theorem cursorInv_zero {m : TuiModel} (h : m.cursor = 0) : cursorInv m := by
  constructor
  · intro _
    exact h
  · intro hne
    rw [h]
    exact List.length_pos.mpr hne

theorem cursorInv_same {m m' : TuiModel} (hi : m'.items = m.items)
    (hc : m'.cursor = m.cursor) (h : cursorInv m) : cursorInv m' := by
  obtain ⟨h0, hlt⟩ := h
  constructor
  · intro he
    rw [hc]
    exact h0 (by rw [← hi]; exact he)
  · intro hne
    rw [hc, hi]
    exact hlt (by rw [← hi]; exact hne)


theorem pagSetTotalPages_items (m : TuiModel) (x : Int) :
    (pagSetTotalPages m x).items = m.items := by
  unfold pagSetTotalPages
  split <;> rfl

theorem pagSetTotalPages_cursor (m : TuiModel) (x : Int) :
    (pagSetTotalPages m x).cursor = m.cursor := by
  unfold pagSetTotalPages
  split <;> rfl

theorem cursorInv_step (m : TuiModel) (msg : TuiMsg) (h : cursorInv m) :
    cursorInv (tuiUpdate m msg).1 := by
  obtain ⟨h0, hlt⟩ := h
  cases msg with
  | key s =>
    cases hm : m.mode with
    | selectMode =>
      dsimp only [tuiUpdate]
      rw [hm]
      dsimp only
      by_cases h1 : s = "ctrl+c" ∨ s = "q"
      · rw [if_pos h1]
        exact ⟨h0, hlt⟩
      rw [if_neg h1]
      by_cases h2 : s = "f"
      · rw [if_pos h2]
        exact ⟨h0, hlt⟩
      rw [if_neg h2]
      by_cases h3 : s = "enter"
      · rw [if_pos h3]
        by_cases hb : goTrim m.numberBuffer ≠ ""
        · rw [if_pos hb]
          cases hat : goAtoi (goTrim m.numberBuffer) with
          | none => exact ⟨h0, hlt⟩
          | some n =>
            dsimp only
            by_cases hn : n ≤ 0
            · rw [if_pos hn]
              exact ⟨h0, hlt⟩
            · rw [if_neg hn]
              exact ⟨h0, hlt⟩
        · rw [if_neg hb]
          by_cases hemp : m.items = []
          · rw [if_pos hemp]
            exact ⟨h0, hlt⟩
          · rw [if_neg hemp]
            exact ⟨h0, hlt⟩
      rw [if_neg h3]
      by_cases h4 : s = "backspace"
      · rw [if_pos h4]
        exact ⟨h0, hlt⟩
      rw [if_neg h4]
      by_cases h5 : s = "up" ∨ s = "k"
      · rw [if_pos h5]
        by_cases hemp : m.items = []
        · rw [if_pos hemp]
          exact ⟨h0, hlt⟩
        rw [if_neg hemp]
        have hc := hlt hemp
        have hp := List.length_pos.mpr hemp
        by_cases hpos : m.cursor > 0
        · rw [if_pos hpos]
          refine ⟨fun he => absurd he hemp, fun hne => ?_⟩
          show m.cursor - 1 < m.items.length
          omega
        · rw [if_neg hpos]
          refine ⟨fun he => absurd he hemp, fun hne => ?_⟩
          show m.items.length - 1 < m.items.length
          omega
      rw [if_neg h5]
      by_cases h6 : s = "down" ∨ s = "j"
      · rw [if_pos h6]
        by_cases hemp : m.items = []
        · rw [if_pos hemp]
          exact ⟨h0, hlt⟩
        rw [if_neg hemp]
        have hc := hlt hemp
        by_cases hlt2 : m.cursor < m.items.length - 1
        · rw [if_pos hlt2]
          refine ⟨fun he => absurd he hemp, fun hne => ?_⟩
          show m.cursor + 1 < m.items.length
          omega
        · rw [if_neg hlt2]
          exact cursorInv_zero rfl
      rw [if_neg h6]
      by_cases h7 : s = "pgup" ∨ s = "p" ∨ s = "left"
      · rw [if_pos h7]
        by_cases hpage : m.page > 0
        · rw [if_pos hpage]
          exact cursorInv_zero rfl
        · rw [if_neg hpage]
          exact ⟨h0, hlt⟩
      rw [if_neg h7]
      by_cases h8 : s = "pgdn" ∨ s = "n" ∨ s = "right"
      · rw [if_pos h8]
        exact cursorInv_zero rfl
      rw [if_neg h8]
      by_cases h9 : s = "tab"
      · rw [if_pos h9]
        exact ⟨h0, hlt⟩
      rw [if_neg h9]
      cases hd : s.data with
      | nil => exact ⟨h0, hlt⟩
      | cons c cs =>
        cases cs with
        | nil =>
          dsimp only
          by_cases hdig : '0' ≤ c ∧ c ≤ '9'
          · rw [if_pos hdig]
            exact ⟨h0, hlt⟩
          · rw [if_neg hdig]
            exact ⟨h0, hlt⟩
        | cons c2 cs2 => exact ⟨h0, hlt⟩
    | filterMode =>
      dsimp only [tuiUpdate]
      rw [hm]
      dsimp only
      by_cases h1 : s = "ctrl+c" ∨ s = "q"
      · rw [if_pos h1]
        exact ⟨h0, hlt⟩
      rw [if_neg h1]
      by_cases h2 : s = "escape" ∨ s = "f"
      · rw [if_pos h2]
        exact ⟨h0, hlt⟩
      rw [if_neg h2]
      by_cases h3 : s = "tab"
      · rw [if_pos h3]
        exact ⟨h0, hlt⟩
      rw [if_neg h3]
      by_cases h4 : s = "pgup" ∨ s = "p" ∨ s = "right"
      · rw [if_pos h4]
        by_cases hpage : m.page > 0
        · rw [if_pos hpage]
          exact cursorInv_zero rfl
        · rw [if_neg hpage]
          exact ⟨h0, hlt⟩
      rw [if_neg h4]
      by_cases h5 : s = "pgdn" ∨ s = "n" ∨ s = "left"
      · rw [if_pos h5]
        exact cursorInv_zero rfl
      rw [if_neg h5]
      cases hd : s.data with
      | nil => exact ⟨h0, hlt⟩
      | cons c cs =>
        cases cs with
        | nil => exact ⟨h0, hlt⟩
        | cons c2 cs2 => exact ⟨h0, hlt⟩
  | list items total err =>
    cases err with
    | some e => exact ⟨h0, hlt⟩
    | none =>
      dsimp only [tuiUpdate]
      by_cases hemp : (pagSetTotalPages
          { m with error := none, items := items, total := total }
          (Int.tdiv (total + (if m.perPage ≤ 0 then 50 else m.perPage) - 1)
            (if m.perPage ≤ 0 then 50 else m.perPage))).items = []
      · rw [if_pos hemp]
        exact cursorInv_zero rfl
      rw [if_neg hemp]
      rw [pagSetTotalPages_items] at hemp
      have hemp2 : items ≠ [] := hemp
      have hp : 0 < items.length := List.length_pos.mpr hemp2
      by_cases hge : (pagSetTotalPages
          { m with error := none, items := items, total := total }
          (Int.tdiv (total + (if m.perPage ≤ 0 then 50 else m.perPage) - 1)
            (if m.perPage ≤ 0 then 50 else m.perPage))).cursor
          ≥ (pagSetTotalPages
          { m with error := none, items := items, total := total }
          (Int.tdiv (total + (if m.perPage ≤ 0 then 50 else m.perPage) - 1)
            (if m.perPage ≤ 0 then 50 else m.perPage))).items.length
      · rw [if_pos hge]
        refine ⟨fun he => ?_, fun hne => ?_⟩
        · exact absurd (by
            rw [pagSetTotalPages_items] at he
            exact he) hemp2
        · rw [pagSetTotalPages_items]
          show items.length - 1 < items.length
          omega
      · rw [if_neg hge]
        rw [pagSetTotalPages_items, pagSetTotalPages_cursor] at hge
        refine ⟨fun he => ?_, fun hne => ?_⟩
        · exact absurd (by
            rw [pagSetTotalPages_items] at he
            exact he) hemp2
        · rw [pagSetTotalPages_items, pagSetTotalPages_cursor]
          omega
  | switchDone err =>
    cases err with
    | none => exact ⟨h0, hlt⟩
    | some e => exact ⟨h0, hlt⟩

theorem tuiUpdate_up_select (m : TuiModel) (hmode : m.mode = .selectMode) :
    tuiUpdate m (.key "up")
      = (if m.items = [] then (m, TuiCmd.noCmd)
         else if m.cursor > 0 then ({ m with cursor := m.cursor - 1 }, TuiCmd.noCmd)
         else ({ m with cursor := m.items.length - 1 }, TuiCmd.noCmd)) := by
  dsimp only [tuiUpdate]
  rw [hmode]
  dsimp only
  rw [if_neg (by decide), if_neg (by decide), if_neg (by decide), if_neg (by decide),
      if_pos (by decide)]

theorem tuiUpdate_down_select (m : TuiModel) (hmode : m.mode = .selectMode) :
    tuiUpdate m (.key "down")
      = (if m.items = [] then (m, TuiCmd.noCmd)
         else if m.cursor < m.items.length - 1 then ({ m with cursor := m.cursor + 1 }, TuiCmd.noCmd)
         else ({ m with cursor := 0 }, TuiCmd.noCmd)) := by
  dsimp only [tuiUpdate]
  rw [hmode]
  dsimp only
  rw [if_neg (by decide), if_neg (by decide), if_neg (by decide), if_neg (by decide),
      if_neg (by decide), if_pos (by decide)]

theorem tuiUpdate_list_cursor (m : TuiModel) (items : List Branch) (total : Int) :
    (tuiUpdate m (.list items total none)).1.cursor
      = (if items.length = 0 then 0
         else if m.cursor ≥ items.length then items.length - 1 else m.cursor) := by
  dsimp only [tuiUpdate]
  by_cases hemp : (pagSetTotalPages
      { m with error := none, items := items, total := total }
      (Int.tdiv (total + (if m.perPage ≤ 0 then 50 else m.perPage) - 1)
        (if m.perPage ≤ 0 then 50 else m.perPage))).items = []
  · rw [if_pos hemp]
    rw [pagSetTotalPages_items] at hemp
    have : items.length = 0 := by
      rw [List.length_eq_zero]
      exact hemp
    rw [if_pos this]
  · rw [if_neg hemp]
    rw [pagSetTotalPages_items] at hemp
    have hlen : ¬ items.length = 0 := by
      rw [List.length_eq_zero]
      exact hemp
    rw [if_neg hlen]
    by_cases hge : (pagSetTotalPages
        { m with error := none, items := items, total := total }
        (Int.tdiv (total + (if m.perPage ≤ 0 then 50 else m.perPage) - 1)
          (if m.perPage ≤ 0 then 50 else m.perPage))).cursor
        ≥ (pagSetTotalPages
        { m with error := none, items := items, total := total }
        (Int.tdiv (total + (if m.perPage ≤ 0 then 50 else m.perPage) - 1)
          (if m.perPage ≤ 0 then 50 else m.perPage))).items.length
    · rw [if_pos hge]
      rw [pagSetTotalPages_items, pagSetTotalPages_cursor] at hge
      rw [if_pos hge]
      rw [pagSetTotalPages_items]
    · rw [if_neg hge]
      rw [pagSetTotalPages_items, pagSetTotalPages_cursor] at hge
      rw [if_neg hge]
      rw [pagSetTotalPages_cursor]

/-- C6: for every message sequence applied to the selection state machine
from its initial state, the cursor stays inside the current item list
(and is 0 on an empty list); in select mode, up and down move the cursor
by one with wraparound at the ends and are no-ops on an empty list, and a
successful query result clamps the cursor into the new bounds. -/
theorem c6_cursor_invariant (repoPath : String) (scope : Scope)
    (pageSize : Int) (pattern : String) (msgs : List TuiMsg) :
    cursorInv (tuiRun (tuiNew repoPath scope pageSize pattern) msgs)
    ∧ (∀ m : TuiModel, m.mode = .selectMode → m.items ≠ [] →
        ((tuiUpdate m (.key "up")).1.cursor
            = (if m.cursor > 0 then m.cursor - 1 else m.items.length - 1))
        ∧ ((tuiUpdate m (.key "down")).1.cursor
            = (if m.cursor < m.items.length - 1 then m.cursor + 1 else 0)))
    ∧ (∀ m : TuiModel, m.mode = .selectMode → m.items = [] →
        tuiUpdate m (.key "up") = (m, .noCmd) ∧ tuiUpdate m (.key "down") = (m, .noCmd))
    ∧ (∀ m : TuiModel, ∀ items : List Branch, ∀ total : Int,
        (tuiUpdate m (.list items total none)).1.cursor
          = (if items.length = 0 then 0
             else if m.cursor ≥ items.length then items.length - 1 else m.cursor)) := by
  refine ⟨?_, ?_, ?_, ?_⟩
  · have aux : ∀ (l : List TuiMsg) (m0 : TuiModel), cursorInv m0 → cursorInv (tuiRun m0 l) := by
      intro l
      induction l with
      | nil => exact fun m0 h => h
      | cons msg rest ih => exact fun m0 h => ih _ (cursorInv_step m0 msg h)
    exact aux msgs _ (cursorInv_zero rfl)
  · intro m hmode hne
    constructor
    · rw [tuiUpdate_up_select m hmode, if_neg hne]
      by_cases hc : m.cursor > 0
      · rw [if_pos hc, if_pos hc]
      · rw [if_neg hc, if_neg hc]
    · rw [tuiUpdate_down_select m hmode, if_neg hne]
      by_cases hc : m.cursor < m.items.length - 1
      · rw [if_pos hc, if_pos hc]
      · rw [if_neg hc, if_neg hc]
  · intro m hmode hemp
    constructor
    · rw [tuiUpdate_up_select m hmode, if_pos hemp]
    · rw [tuiUpdate_down_select m hmode, if_pos hemp]
  · intro m items total
    exact tuiUpdate_list_cursor m items total

def demoM6 : TuiModel :=
  { tuiNew "" Scope.ScopeLocal 50 "" with items := [demoA, demoB], total := 2 }

theorem c6_cursor_invariant_witness :
    cursorInv (tuiRun (tuiNew "" Scope.ScopeLocal 2 "")
        [TuiMsg.list [demoA, demoB] 2 none, TuiMsg.key "down"])
    ∧ (tuiUpdate demoM6 (TuiMsg.key "up")).1.cursor
        = (if demoM6.cursor > 0 then demoM6.cursor - 1 else demoM6.items.length - 1) :=
  ⟨(c6_cursor_invariant "" Scope.ScopeLocal 2 ""
      [TuiMsg.list [demoA, demoB] 2 none, TuiMsg.key "down"]).1,
   ((c6_cursor_invariant "" Scope.ScopeLocal 2 "" []).2.1 demoM6 rfl (by decide)).1⟩

/-! ### C8 -/

theorem tuiUpdate_pageBack_select (m : TuiModel) (hmode : m.mode = .selectMode)
    (s : String) (hs : s = "pgup" ∨ s = "p" ∨ s = "left") :
    tuiUpdate m (.key s)
      = (if m.page > 0 then ({ pagPrev m with cursor := 0 }, TuiCmd.refresh)
         else (m, TuiCmd.noCmd)) := by
  dsimp only [tuiUpdate]
  rw [hmode]
  dsimp only
  rcases hs with rfl | rfl | rfl <;>
    rw [if_neg (by decide), if_neg (by decide), if_neg (by decide), if_neg (by decide),
        if_neg (by decide), if_neg (by decide), if_pos (by decide)]

theorem tuiUpdate_pageForward_select (m : TuiModel) (hmode : m.mode = .selectMode)
    (s : String) (hs : s = "pgdn" ∨ s = "n" ∨ s = "right") :
    tuiUpdate m (.key s) = ({ pagNext m with cursor := 0 }, TuiCmd.refresh) := by
  dsimp only [tuiUpdate]
  rw [hmode]
  dsimp only
  rcases hs with rfl | rfl | rfl <;>
    rw [if_neg (by decide), if_neg (by decide), if_neg (by decide), if_neg (by decide),
        if_neg (by decide), if_neg (by decide), if_neg (by decide), if_pos (by decide)]

theorem tuiUpdate_pageBack_filter (m : TuiModel) (hmode : m.mode = .filterMode)
    (s : String) (hs : s = "pgup" ∨ s = "p" ∨ s = "right") :
    tuiUpdate m (.key s)
      = (if m.page > 0 then ({ pagPrev m with cursor := 0 }, TuiCmd.refresh)
         else (m, TuiCmd.noCmd)) := by
  dsimp only [tuiUpdate]
  rw [hmode]
  dsimp only
  rcases hs with rfl | rfl | rfl <;>
    rw [if_neg (by decide), if_neg (by decide), if_neg (by decide), if_pos (by decide)]

theorem tuiUpdate_pageForward_filter (m : TuiModel) (hmode : m.mode = .filterMode)
    (s : String) (hs : s = "pgdn" ∨ s = "n" ∨ s = "left") :
    tuiUpdate m (.key s) = ({ pagNext m with cursor := 0 }, TuiCmd.refresh) := by
  dsimp only [tuiUpdate]
  rw [hmode]
  dsimp only
  rcases hs with rfl | rfl | rfl <;>
    rw [if_neg (by decide), if_neg (by decide), if_neg (by decide), if_neg (by decide),
        if_pos (by decide)]

def m8 : TuiModel := { tuiNew "" Scope.ScopeLocal 50 "" with page := 1, totalPages := 3 }

/-- C8 counterexample: the same physical key "left" pages BACK in select
mode (page 1 → 0) but pages FORWARD in filter mode (page 1 → 2), so the
same physical key does not map to the same page direction in both modes. -/
theorem c8_paging_cex :
    (tuiUpdate { m8 with mode := .selectMode } (.key "left")).1.page = 0
    ∧ (tuiUpdate { m8 with mode := .filterMode } (.key "left")).1.page = 2 := by
  decide

/-- C8 amended: the filter-mode page-back and page-forward handlers have
exactly the same effect as their select-mode counterparts (page-back
decrements the page, resets the cursor and refreshes unless already on
the first page where it does nothing; page-forward advances through the
paginator, resets the cursor and always refreshes), and the keys
"pgup"/"p" and "pgdn"/"n" map to the same direction in both modes — but
the arrow keys are swapped between modes: "left"/"right" are
back/forward in select mode while "right"/"left" are back/forward in
filter mode. -/
theorem c8_paging (m : TuiModel) (ms mf : TuiModel)
    (hms : ms = { m with mode := .selectMode }) (hmf : mf = { m with mode := .filterMode }) :
    (∀ s, (s = "pgup" ∨ s = "p" ∨ s = "left") →
      tuiUpdate ms (.key s)
        = (if m.page > 0 then ({ pagPrev ms with cursor := 0 }, TuiCmd.refresh)
           else (ms, TuiCmd.noCmd)))
    ∧ (∀ s, (s = "pgdn" ∨ s = "n" ∨ s = "right") →
      tuiUpdate ms (.key s) = ({ pagNext ms with cursor := 0 }, TuiCmd.refresh))
    ∧ (∀ s, (s = "pgup" ∨ s = "p" ∨ s = "right") →
      tuiUpdate mf (.key s)
        = (if m.page > 0 then ({ pagPrev mf with cursor := 0 }, TuiCmd.refresh)
           else (mf, TuiCmd.noCmd)))
    ∧ (∀ s, (s = "pgdn" ∨ s = "n" ∨ s = "left") →
      tuiUpdate mf (.key s) = ({ pagNext mf with cursor := 0 }, TuiCmd.refresh))
    ∧ (∀ s, (s = "pgup" ∨ s = "p") →
      (tuiUpdate mf (.key s)).1 = { (tuiUpdate ms (.key s)).1 with mode := .filterMode }
      ∧ (tuiUpdate mf (.key s)).2 = (tuiUpdate ms (.key s)).2)
    ∧ (∀ s, (s = "pgdn" ∨ s = "n") →
      (tuiUpdate mf (.key s)).1 = { (tuiUpdate ms (.key s)).1 with mode := .filterMode }
      ∧ (tuiUpdate mf (.key s)).2 = (tuiUpdate ms (.key s)).2)
    ∧ ((tuiUpdate mf (.key "right")).1 = { (tuiUpdate ms (.key "left")).1 with mode := .filterMode }
       ∧ (tuiUpdate mf (.key "right")).2 = (tuiUpdate ms (.key "left")).2)
    ∧ ((tuiUpdate mf (.key "left")).1 = { (tuiUpdate ms (.key "right")).1 with mode := .filterMode }
       ∧ (tuiUpdate mf (.key "left")).2 = (tuiUpdate ms (.key "right")).2) := by
  subst hms hmf
  have hback_s : ∀ s, (s = "pgup" ∨ s = "p" ∨ s = "left") →
      tuiUpdate { m with mode := TuiMode.selectMode } (.key s)
        = (if m.page > 0
           then ({ pagPrev { m with mode := TuiMode.selectMode } with cursor := 0 },
                 TuiCmd.refresh)
           else ({ m with mode := TuiMode.selectMode }, TuiCmd.noCmd)) :=
    fun s hs => tuiUpdate_pageBack_select _ rfl s hs
  have hfwd_s : ∀ s, (s = "pgdn" ∨ s = "n" ∨ s = "right") →
      tuiUpdate { m with mode := TuiMode.selectMode } (.key s)
        = ({ pagNext { m with mode := TuiMode.selectMode } with cursor := 0 },
           TuiCmd.refresh) :=
    fun s hs => tuiUpdate_pageForward_select _ rfl s hs
  have hback_f : ∀ s, (s = "pgup" ∨ s = "p" ∨ s = "right") →
      tuiUpdate { m with mode := TuiMode.filterMode } (.key s)
        = (if m.page > 0
           then ({ pagPrev { m with mode := TuiMode.filterMode } with cursor := 0 },
                 TuiCmd.refresh)
           else ({ m with mode := TuiMode.filterMode }, TuiCmd.noCmd)) :=
    fun s hs => tuiUpdate_pageBack_filter _ rfl s hs
  have hfwd_f : ∀ s, (s = "pgdn" ∨ s = "n" ∨ s = "left") →
      tuiUpdate { m with mode := TuiMode.filterMode } (.key s)
        = ({ pagNext { m with mode := TuiMode.filterMode } with cursor := 0 },
           TuiCmd.refresh) :=
    fun s hs => tuiUpdate_pageForward_filter _ rfl s hs
  refine ⟨hback_s, hfwd_s, hback_f, hfwd_f, ?_, ?_, ?_, ?_⟩
  · intro s hs
    have hs3 : s = "pgup" ∨ s = "p" ∨ s = "left" := by tauto
    have hf3 : s = "pgup" ∨ s = "p" ∨ s = "right" := by tauto
    rw [hback_s s hs3, hback_f s hf3]
    by_cases hpage : m.page > 0 <;>
      simp [hpage, pagPrev]
  · intro s hs
    have hs3 : s = "pgdn" ∨ s = "n" ∨ s = "right" := by tauto
    have hf3 : s = "pgdn" ∨ s = "n" ∨ s = "left" := by tauto
    rw [hfwd_s s hs3, hfwd_f s hf3]
    by_cases hlast : m.page = m.totalPages - 1 <;>
      simp [pagNext, hlast]
  · rw [hback_s "left" (by tauto), hback_f "right" (by tauto)]
    by_cases hpage : m.page > 0 <;>
      simp [hpage, pagPrev]
  · rw [hfwd_s "right" (by tauto), hfwd_f "left" (by tauto)]
    by_cases hlast : m.page = m.totalPages - 1 <;>
      simp [pagNext, hlast]

theorem c8_paging_witness :
    tuiUpdate { m8 with mode := TuiMode.selectMode } (TuiMsg.key "pgup")
      = (if m8.page > 0
         then ({ pagPrev { m8 with mode := TuiMode.selectMode } with cursor := 0 },
               TuiCmd.refresh)
         else ({ m8 with mode := TuiMode.selectMode }, TuiCmd.noCmd)) :=
  (c8_paging m8 _ _ rfl rfl).1 "pgup" (by tauto)

/-! ### C7 -/

def demoM7 : TuiModel := tuiNew "" Scope.ScopeLocal 50 ""

/-- C7 counterexample: with exactly 2 matching branches, the numeric jump
to index 2 — an index AT the total — is valid and attempts the switch for
the second branch, rather than yielding a range error as the claim's "at
or beyond the total" requires. -/
theorem c7_select_by_number_cex :
    (sortBranches "recency" "desc"
        (filterBranches (goTrim demoM7.filterText)
          (markCurrent (.error "detached HEAD") [demoA, demoB]))).length = 2
    ∧ selectByNumber [demoA, demoB] (.error "detached HEAD") demoM7 2
        = .attemptSwitch "beta" := by
  decide


/-- C7 (amended): a numeric jump with 1-based index n under the active
filter resolves n to the page containing that global position; an index
STRICTLY beyond the total number of matching branches yields a range
error with no switch attempted, while every n with 1 ≤ n ≤ total
attempts the switch for the branch at global position n of the
recency/desc-sorted filtered sequence.  (The unamended "at or beyond"
fails at n = total, the last valid position, as the counterexample
shows.) -/
theorem c7_select_by_number (branches : List Branch) (cur : Except String Branch)
    (m : TuiModel) (n : Int)
    (L : List Branch)
    (hL : L = sortBranches "recency" "desc"
        (filterBranches (goTrim m.filterText) (markCurrent cur branches)))
    (total : Int) (htotal : total = (L.length : Int)) :
    (n > total → selectByNumber branches cur m n = .rangeError)
    ∧ (1 ≤ n → n ≤ total →
        selectByNumber branches cur m n
          = .attemptSwitch ((L.getD (n - 1).toNat default).name)) := by
  subst htotal
  unfold selectByNumber
  dsimp only
  generalize hppE : (if m.perPage ≤ 0 then 50 else m.perPage : Int) = pp
  have hpp1 : 1 ≤ pp := by
    rw [← hppE]
    split <;> omega
  have hQL : queryList branches cur
      ⟨m.repoPath, goTrim m.filterText, m.scope, "recency", "desc",
        Int.tdiv (n - 1) pp + 1, pp⟩ = L := by
    rw [hL]
    rfl
  have hcore := listBranchesCore_eq branches cur
    ⟨m.repoPath, goTrim m.filterText, m.scope, "recency", "desc",
      Int.tdiv (n - 1) pp + 1, pp⟩
  have hSmin := pagStart_min (Int.tdiv (n - 1) pp + 1) pp ((L.length : Nat) : Int)
  have harg : (Int.tdiv (n - 1) pp + 1 - 1) * pp = pp * Int.tdiv (n - 1) pp := by
    ring
  rw [harg] at hSmin
  constructor
  · intro hn
    have hn0 : ¬ n ≤ 0 := by omega
    rw [if_neg hn0]
    have hq0 : 0 ≤ Int.tdiv (n - 1) pp := Int.tdiv_nonneg (by omega) (by omega)
    rw [hcore (by dsimp only; omega) (by dsimp only; omega), hQL]
    dsimp only
    have hdm := Int.tdiv_add_tmod (n - 1) pp
    have hmn : 0 ≤ Int.tmod (n - 1) pp := Int.tmod_nonneg pp (by omega)
    have hml : Int.tmod (n - 1) pp < pp := Int.tmod_lt_of_pos (n - 1) (by omega)
    have hP0 : 0 ≤ pp * Int.tdiv (n - 1) pp := mul_nonneg (by omega) hq0
    rw [hSmin, pagEndIdx_min]
    generalize hrE : Int.tmod (n - 1) pp = r at hdm hmn hml ⊢
    generalize hPE : pp * Int.tdiv (n - 1) pp = P at hdm hP0 ⊢
    rw [if_pos ?cond]
    case cond =>
      refine Or.inr ?_
      rw [List.length_take, List.length_drop]
      omega
  · intro hn1 hn2
    have hn0 : ¬ n ≤ 0 := by omega
    rw [if_neg hn0]
    have hq0 : 0 ≤ Int.tdiv (n - 1) pp := Int.tdiv_nonneg (by omega) (by omega)
    rw [hcore (by dsimp only; omega) (by dsimp only; omega), hQL]
    dsimp only
    have hdm := Int.tdiv_add_tmod (n - 1) pp
    have hmn : 0 ≤ Int.tmod (n - 1) pp := Int.tmod_nonneg pp (by omega)
    have hml : Int.tmod (n - 1) pp < pp := Int.tmod_lt_of_pos (n - 1) (by omega)
    have hP0 : 0 ≤ pp * Int.tdiv (n - 1) pp := mul_nonneg (by omega) hq0
    rw [hSmin, pagEndIdx_min]
    generalize hrE : Int.tmod (n - 1) pp = r at hdm hmn hml ⊢
    generalize hPE : pp * Int.tdiv (n - 1) pp = P at hdm hP0 ⊢
    rw [if_neg ?ncond]
    case ncond =>
      rw [List.length_take, List.length_drop]
      push_neg
      refine ⟨by omega, by omega⟩
    have hrlt : r.toNat
        < ((L.drop (min P ((L.length : Nat) : Int)).toNat).take
            (min (min P ((L.length : Nat) : Int) + pp) ((L.length : Nat) : Int)
              - min P ((L.length : Nat) : Int)).toNat).length := by
      rw [List.length_take, List.length_drop]
      omega
    rw [List.getD_eq_getElem _ _ hrlt]
    have hnlt : (n - 1).toNat < L.length := by omega
    rw [List.getD_eq_getElem _ _ hnlt]
    have hidx : (min P ((L.length : Nat) : Int)).toNat + r.toNat = (n - 1).toNat := by
      omega
    congr 1
    rw [List.getElem_take, List.getElem_drop]
    simp only [hidx]

theorem c7_select_by_number_witness :
    selectByNumber [demoA, demoB] (.error "x") demoM7 3 = SelectOutcome.rangeError :=
  (c7_select_by_number [demoA, demoB] (.error "x") demoM7 3 _ rfl 2 (by decide)).1
    (by decide)
